import Mathlib

/-!
Verification of the SSD detection layer module
(`python/paddle/v2/fluid/layers/detection.py`).

The module builds an operator graph: each layer function appends operator
nodes (kind, named inputs, named outputs, attribute map) to a program and
returns placeholder variables.  We embed that graph construction directly:
a `Prog` is the list of appended `OpNode`s plus a fresh-name counter, and
each layer function of the source becomes a Lean function threading the
`Prog` explicitly.  Scalar Python values (ints, floats, strings, lists)
are embedded as `PyScal`/`PyItem`/`PyVal`.

The native operators themselves (`bipartite_match`, `target_assign`,
`mine_hard_examples`) are implemented in C++ outside this repository; their
numeric behaviour is modelled from the specification in a separate
`Native` namespace.
-/

set_option maxHeartbeats 3200000
set_option maxRecDepth 16000
set_option linter.unusedVariables false

namespace SSDDetection

/-- A scalar Python value: `None`, an int, a float (as `ℚ`), a string or a bool. -/
inductive PyScal where
  | snone : PyScal
  | sint : Int → PyScal
  | snum : ℚ → PyScal
  | sstr : String → PyScal
  | sbool : Bool → PyScal
deriving DecidableEq

/-- An element of a Python list: either a scalar or a (flat) list of scalars.
Two levels of nesting are all the detection layers ever build. -/
inductive PyItem where
  | item : PyScal → PyItem
  | ilist : List PyScal → PyItem
deriving DecidableEq

/-- A Python value as passed for a layer argument or stored as an operator
attribute: a scalar or a list. -/
inductive PyVal where
  | scal : PyScal → PyVal
  | plist : List PyItem → PyVal
deriving DecidableEq

/-- Python truthiness of a scalar. -/
def PyScal.truthy : PyScal → Bool
  | .snone => false
  | .sint n => n != 0
  | .snum q => q != 0
  | .sstr s => !s.isEmpty
  | .sbool b => b

/-- Python truthiness of a value (`if v:`); a list is truthy when non-empty. -/
def PyVal.truthy : PyVal → Bool
  | .scal s => s.truthy
  | .plist xs => !xs.isEmpty

/-- View a list element as a value again (used after indexing `xs[i]`). -/
def PyItem.toVal : PyItem → PyVal
  | .item s => .scal s
  | .ilist xs => .plist (xs.map .item)

/-- `x if isinstance(x, list) else [x]` applied to a list element. -/
def PyItem.wrap : PyItem → List PyItem
  | .item s => [.item s]
  | .ilist xs => xs.map .item

/-- A tensor placeholder variable: fresh id, dtype, (statically inferred) shape
and the number of LoD segments (`nseg`, 1 for a plain tensor). -/
structure Var where
  id : Nat
  dtype : String
  shape : List Nat
  nseg : Nat
deriving DecidableEq

/-- An operator node appended to the graph: kind name, named inputs (an input
slot may be `none`, i.e. Python `None`), named outputs and attributes. -/
structure OpNode where
  optype : String
  inputs : List (String × Option Var)
  outputs : List (String × Var)
  attrs : List (String × PyVal)
deriving DecidableEq

/-- The program being constructed: appended operator nodes and a counter for
fresh temporary variables. -/
structure Prog where
  ops : List OpNode
  next : Nat
deriving DecidableEq

/-- The empty program. -/
def emptyProg : Prog := ⟨[], 0⟩

/-- `helper.create_tmp_variable(dtype)`: a fresh placeholder variable.  The
shape/LoD of a temporary is inferred by the runtime; the modelled shape is
supplied by each call site following the specification. -/
def createTmp (g : Prog) (dtype : String) (shape : List Nat) (nseg : Nat) : Var × Prog :=
  (⟨g.next, dtype, shape, nseg⟩, ⟨g.ops, g.next + 1⟩)

/-- `helper.append_op(...)`: schedule an operator node. -/
def appendOp (g : Prog) (op : OpNode) : Prog := ⟨g.ops ++ [op], g.next⟩

/-- Modelled from the spec: the wrapper produced by `generate_layer_fn
('iou_similarity')` (module `layer_function_generator`, not under src/)
appends the native `iou_similarity` operator with inputs X, Y and one output.
Output is the pairwise DistanceMatrix: rows = ground-truth boxes, columns =
prior boxes (spec section 4.1); it keeps the LoD segmentation of X. -/
def iouSimilarity (g : Prog) (x y : Var) : Var × Prog :=
  let t := createTmp g x.dtype [x.shape.headD 0, y.shape.headD 0] x.nseg
  (t.1, appendOp t.2 ⟨"iou_similarity", [("X", some x), ("Y", some y)], [("Out", t.1)], []⟩)

/-- Modelled from the spec: the wrapper produced by `generate_layer_fn
('box_coder')` (not under src/) appends the native `box_coder` operator.
In `encode_center_size` mode the output holds, for every (target box, prior
box) pair, the 4 encoded offsets (spec section 4.4), so its modelled shape is
[num target boxes, num priors, 4]; in decode mode it has the target's shape. -/
def boxCoder (g : Prog) (priorBox : Var) (priorBoxVar : Option Var) (targetBox : Var)
    (codeType : String) : Var × Prog :=
  let shape := if codeType = "encode_center_size" then
      [targetBox.shape.headD 0, priorBox.shape.headD 0, 4]
    else targetBox.shape
  let t := createTmp g targetBox.dtype shape targetBox.nseg
  (t.1, appendOp t.2 ⟨"box_coder",
    [("PriorBox", some priorBox), ("PriorBoxVar", priorBoxVar), ("TargetBox", some targetBox)],
    [("OutputBox", t.1)],
    [("code_type", .scal (.sstr codeType))]⟩)

/-- Modelled from the spec: `ops.reshape` (module `ops`, not under src/)
appends a `reshape` operator; a `-1` entry of the requested shape is inferred
from the element count of the input. -/
def resolveShape (old : List Nat) (ns : List Int) : List Nat :=
  let total := old.foldr (· * ·) 1
  let known := ns.foldr (fun d acc => if d = -1 then acc else d.toNat * acc) 1
  ns.map (fun d => if d = -1 then total / known else d.toNat)

/-- Modelled from the spec: the `reshape` layer wrapper (module `ops`,
not under src/). -/
def opsReshape (g : Prog) (x : Var) (ns : List Int) : Var × Prog :=
  let t := createTmp g x.dtype (resolveShape x.shape ns) x.nseg
  (t.1, appendOp t.2 ⟨"reshape", [("X", some x)], [("Out", t.1)],
    [("shape", .plist (ns.map fun d => .item (.sint d)))]⟩)

/-- Modelled from the spec: `tensor.cast` (module `tensor`, not under src/)
appends a `cast` operator; same shape, new dtype. -/
def tensorCast (g : Prog) (x : Var) (dt : String) : Var × Prog :=
  let t := createTmp g dt x.shape x.nseg
  (t.1, appendOp t.2 ⟨"cast", [("X", some x)], [("Out", t.1)],
    [("out_dtype", .scal (.sstr dt))]⟩)

/-- Modelled from the spec: `tensor.concat` (not under src/) appends a
`concat` operator joining along the first axis. -/
def tensorConcat (g : Prog) (xs : List Var) : Var × Prog :=
  let shape := (xs.map (fun v => v.shape.headD 0)).foldr (· + ·) 0 ::
    ((xs.headD ⟨0, "float32", [], 1⟩).shape.drop 1)
  let t := createTmp g (xs.headD ⟨0, "float32", [], 1⟩).dtype shape 1
  (t.1, appendOp t.2 ⟨"concat",
    (xs.enum.map fun p => (String.append "X_" (toString p.1), some p.2)),
    [("Out", t.1)], [("axis", .scal (.sint 0))]⟩)

/-- Modelled from the spec: `nn.softmax_with_cross_entropy` (module `nn`, not
under src/) appends the operator; the loss output is a per-row scalar, so it
takes the label's shape (spec section 4.6). -/
def softmaxWithCE (g : Prog) (logits label : Var) : Var × Prog :=
  let t := createTmp g logits.dtype label.shape label.nseg
  (t.1, appendOp t.2 ⟨"softmax_with_cross_entropy",
    [("Logits", some logits), ("Label", some label)], [("Loss", t.1)], []⟩)

/-- Modelled from the spec: `nn.smooth_l1` (not under src/) appends the
operator; the loss is summed over the coordinates, one scalar per row
(spec section 4.6). -/
def smoothL1 (g : Prog) (x y : Var) : Var × Prog :=
  let t := createTmp g x.dtype [x.shape.headD 0, 1] x.nseg
  (t.1, appendOp t.2 ⟨"smooth_l1", [("X", some x), ("Y", some y)], [("Out", t.1)], []⟩)

/-- Modelled from the spec: elementwise product of two tensors (the `*`
operator on variables, patched outside src/); shape of the left operand. -/
def elemMul (g : Prog) (x y : Var) : Var × Prog :=
  let t := createTmp g x.dtype x.shape x.nseg
  (t.1, appendOp t.2 ⟨"elementwise_mul", [("X", some x), ("Y", some y)], [("Out", t.1)], []⟩)

/-- Modelled from the spec: elementwise sum of two tensors (the `+` operator
on variables, patched outside src/). -/
def elemAdd (g : Prog) (x y : Var) : Var × Prog :=
  let t := createTmp g x.dtype x.shape x.nseg
  (t.1, appendOp t.2 ⟨"elementwise_add", [("X", some x), ("Y", some y)], [("Out", t.1)], []⟩)

/-- Modelled from the spec: product of a Python scalar with a tensor
(`w * t`, patched outside src/), appended as a `scale` operator. -/
def scaleBy (g : Prog) (w : ℚ) (x : Var) : Var × Prog :=
  let t := createTmp g x.dtype x.shape x.nseg
  (t.1, appendOp t.2 ⟨"scale", [("X", some x)], [("Out", t.1)],
    [("scale", .scal (.snum w))]⟩)

/-- From `detection_output` in detection.py: decode the predicted locations
with `box_coder`, then append a `multiclass_nms` operator. -/
def detectionOutput (g : Prog) (scores loc priorBox priorBoxVar : Var)
    (backgroundLabel : Int) (nmsThreshold : ℚ) (nmsTopK : Int) (keepTopK : Int)
    (scoreThreshold : ℚ) (nmsEta : ℚ) : Var × Prog :=
  let r := boxCoder g priorBox (some priorBoxVar) loc "decode_center_size"
  let decoded := r.1
  let t := createTmp r.2 decoded.dtype decoded.shape decoded.nseg
  let out := t.1
  (out, appendOp t.2 ⟨"multiclass_nms",
    [("Scores", some scores), ("BBoxes", some decoded)],
    [("Out", out)],
    [("background_label", .scal (.sint 0)),
     ("nms_threshold", .scal (.snum nmsThreshold)),
     ("nms_top_k", .scal (.sint nmsTopK)),
     ("keep_top_k", .scal (.sint keepTopK)),
     ("score_threshold", .scal (.snum scoreThreshold)),
     ("nms_eta", .scal (.snum 1))]⟩)

/-- From `bipartite_match` in detection.py: create the two output temporaries
and append the native operator.  Per the docstring the output height is the
batch (LoD segment) count of the distance matrix, the width its column
count. -/
def bipartiteMatchLayer (g : Prog) (distMatrix : Var) : (Var × Var) × Prog :=
  let a := createTmp g "int32" [distMatrix.nseg, distMatrix.shape.getD 1 0] 1
  let b := createTmp a.2 distMatrix.dtype [distMatrix.nseg, distMatrix.shape.getD 1 0] 1
  ((a.1, b.1), appendOp b.2 ⟨"bipartite_match", [("DistMat", some distMatrix)],
    [("ColToRowMatchIndices", a.1), ("ColToRowMatchDist", b.1)], []⟩)

/-- From `target_assign` in detection.py: create `out`/`out_weight` and append
the native operator.  The temporaries' shapes are runtime-inferred; modelled
from the spec (section 4.3): `Out` is [batch, P, K], `OutWeight` is
[batch, P, 1], with batch and P taken from `MatchIndices`. -/
def targetAssignLayer (g : Prog) (input matchedIndices : Var)
    (negativeIndices : Option Var) (mismatchValue : PyVal) : (Var × Var) × Prog :=
  let a := createTmp g input.dtype
    [matchedIndices.shape.getD 0 0, matchedIndices.shape.getD 1 0, input.shape.getLastD 0] 1
  let b := createTmp a.2 "float32"
    [matchedIndices.shape.getD 0 0, matchedIndices.shape.getD 1 0, 1] 1
  ((a.1, b.1), appendOp b.2 ⟨"target_assign",
    [("X", some input), ("MatchIndices", some matchedIndices), ("NegIndices", negativeIndices)],
    [("Out", a.1), ("OutWeight", b.1)], [("mismatch_value", mismatchValue)]⟩)

/-- From `__reshape_to_2d` in `ssd_loss`: `ops.reshape(x=var, shape=[-1, var.shape[-1]])`. -/
def reshapeTo2d (g : Prog) (v : Var) : Var × Prog :=
  opsReshape g v [-1, Int.ofNat (v.shape.getLastD 0)]

/-- A Python optional-int argument stored as an attribute value. -/
def optIntVal : Option Int → PyVal
  | Option.none => .scal .snone
  | some n => .scal (.sint n)

/-- From `ssd_loss` in detection.py: the whole graph-construction pipeline.
Argument order follows the source (`neg_pos_ratio` is `rNP`,
`neg_overlap` is `nOv`, `match_type` is `matchKind`, `mining_type` is
`miningKind`).  Returns the loss variable and the extended program, or the
raised error together with the program as it stood when the error was
raised. -/
def ssdLoss (g : Prog)
    (location confidence gtBox gtLabel priorBox : Var)
    (priorBoxVar : Option Var)
    (backgroundLabel : Int)
    (overlapThreshold : ℚ)
    (rNP : ℚ)
    (nOv : ℚ)
    (locLossWeight : ℚ)
    (confLossWeight : ℚ)
    (matchKind : String)
    (miningKind : String)
    (sampleSize : Option Int) :
    Except (String × Prog) (Var × Prog) :=
  if miningKind ≠ "max_negative" then
    .error ("Only support mining_type == max_negative now.", g)
  else
    let num := confidence.shape.getD 0 0
    let numPrior := confidence.shape.getD 1 0
    let r1 := iouSimilarity g gtBox priorBox
    let iou := r1.1
    let r2 := bipartiteMatchLayer r1.2 iou
    let matchedIndices := r2.1.1
    let matchedDist := r2.1.2
    let r3 := opsReshape r2.2 gtLabel ((gtLabel.shape.map Int.ofNat) ++ [1])
    let gtLabel3 := r3.1
    let r4 := targetAssignLayer r3.2 gtLabel3 matchedIndices none (.scal (.sint backgroundLabel))
    let targetLabel0 := r4.1.1
    let r5 := reshapeTo2d r4.2 confidence
    let confidence2 := r5.1
    let r6 := tensorCast r5.2 targetLabel0 "int64"
    let r7 := reshapeTo2d r6.2 r6.1
    let targetLabel2 := r7.1
    let r8 := softmaxWithCE r7.2 confidence2 targetLabel2
    let r9 := opsReshape r8.2 r8.1 [Int.ofNat num, Int.ofNat numPrior]
    let confLoss1 := r9.1
    let t1 := createTmp r9.2 "int32" [] 1
    let negIndices := t1.1
    let t2 := createTmp t1.2 matchedIndices.dtype matchedIndices.shape matchedIndices.nseg
    let updatedMatchedIndices := t2.1
    let g10 := appendOp t2.2 ⟨"mine_hard_examples",
      [("ClsLoss", some confLoss1), ("LocLoss", none),
       ("MatchIndices", some matchedIndices), ("MatchDist", some matchedDist)],
      [("NegIndices", negIndices), ("UpdatedMatchIndices", updatedMatchedIndices)],
      [("neg_pos_ratio", .scal (.snum rNP)),
       ("neg_dist_threshold", .scal (.snum rNP)),
       ("mining_type", .scal (.sstr miningKind)),
       ("sample_size", optIntVal sampleSize)]⟩
    let r11 := boxCoder g10 priorBox priorBoxVar gtBox "encode_center_size"
    let r12 := targetAssignLayer r11.2 r11.1 updatedMatchedIndices none
      (.scal (.sint backgroundLabel))
    let targetBBox := r12.1.1
    let targetLocWeight := r12.1.2
    let r13 := targetAssignLayer r12.2 gtLabel3 updatedMatchedIndices (some negIndices)
      (.scal (.sint backgroundLabel))
    let targetLabel3 := r13.1.1
    let targetConfWeight := r13.1.2
    let r14 := reshapeTo2d r13.2 targetLabel3
    let r15 := tensorCast r14.2 r14.1 "int64"
    let r16 := softmaxWithCE r15.2 confidence2 r15.1
    let r17 := reshapeTo2d r16.2 targetConfWeight
    let r18 := elemMul r17.2 r16.1 r17.1
    let r19 := reshapeTo2d r18.2 location
    let r20 := reshapeTo2d r19.2 targetBBox
    let r21 := smoothL1 r20.2 r19.1 r20.1
    let r22 := reshapeTo2d r21.2 targetLocWeight
    let r23 := elemMul r22.2 r21.1 r22.1
    let r24 := scaleBy r23.2 confLossWeight r18.1
    let r25 := scaleBy r24.2 locLossWeight r23.1
    let r26 := elemAdd r25.2 r24.1 r25.1
    .ok (r26.1, r26.2)

/-- The operator nodes appended by a successful `ssd_loss` call (empty if the
call raised). -/
def ssdLossOps (g : Prog)
    (location confidence gtBox gtLabel priorBox : Var)
    (priorBoxVar : Option Var) (backgroundLabel : Int)
    (overlapThreshold rNP nOv locLossWeight confLossWeight : ℚ)
    (matchKind miningKind : String) (sampleSize : Option Int) : List OpNode :=
  match ssdLoss g location confidence gtBox gtLabel priorBox priorBoxVar backgroundLabel
      overlapThreshold rNP nOv locLossWeight confLossWeight matchKind miningKind sampleSize with
  | .ok (_, g2) => g2.ops.drop g.ops.length
  | .error _ => []

/-- The loss variable returned by a successful `ssd_loss` call. -/
def ssdLossOut (g : Prog)
    (location confidence gtBox gtLabel priorBox : Var)
    (priorBoxVar : Option Var) (backgroundLabel : Int)
    (overlapThreshold rNP nOv locLossWeight confLossWeight : ℚ)
    (matchKind miningKind : String) (sampleSize : Option Int) : Var :=
  match ssdLoss g location confidence gtBox gtLabel priorBox priorBoxVar backgroundLabel
      overlapThreshold rNP nOv locLossWeight confLossWeight matchKind miningKind sampleSize with
  | .ok (v, _) => v
  | .error _ => ⟨0, "", [], 1⟩

/-- Whether an `ssd_loss` call succeeds. -/
def ssdLossIsOk (g : Prog)
    (location confidence gtBox gtLabel priorBox : Var)
    (priorBoxVar : Option Var) (backgroundLabel : Int)
    (overlapThreshold rNP nOv locLossWeight confLossWeight : ℚ)
    (matchKind miningKind : String) (sampleSize : Option Int) : Bool :=
  match ssdLoss g location confidence gtBox gtLabel priorBox priorBoxVar backgroundLabel
      overlapThreshold rNP nOv locLossWeight confLossWeight matchKind miningKind sampleSize with
  | .ok _ => true
  | .error _ => false

/-- The error (message and program state at raise time) of a failed
`ssd_loss` call. -/
def ssdLossErr (g : Prog)
    (location confidence gtBox gtLabel priorBox : Var)
    (priorBoxVar : Option Var) (backgroundLabel : Int)
    (overlapThreshold rNP nOv locLossWeight confLossWeight : ℚ)
    (matchKind miningKind : String) (sampleSize : Option Int) : Option (String × Prog) :=
  match ssdLoss g location confidence gtBox gtLabel priorBox priorBoxVar backgroundLabel
      overlapThreshold rNP nOv locLossWeight confLossWeight matchKind miningKind sampleSize with
  | .error e => some e
  | .ok _ => none

/-- Python list indexing `xs[i]`; raises `IndexError` when out of range. -/
def pyIndex (xs : List PyItem) (i : Nat) : Except String PyItem :=
  match xs.get? i with
  | some v => .ok v
  | none => .error "IndexError: list index out of range"

/-- Python indexing `v[i]` of a value; raises `TypeError` on a scalar. -/
def pyIndexVal (v : PyVal) (i : Nat) : Except String PyVal :=
  match v with
  | .plist xs => (pyIndex xs i).map PyItem.toVal
  | .scal _ => .error "TypeError: object is not subscriptable"

/-- `x if isinstance(x, list) else [x]` on a value. -/
def valWrap : PyVal → List PyItem
  | .plist xs => xs
  | .scal s => [.item s]

/-- Python 2 `xrange(lo, hi, step)` as a list; raises on `step = 0`. -/
def pyRange (lo hi step : Int) : Except String (List Int) :=
  if step = 0 then .error "ValueError: xrange() arg 3 must not be zero"
  else if 0 < step then
    .ok ((List.range ((hi - lo + step - 1).fdiv step).toNat).map fun k => lo + step * Int.ofNat k)
  else
    .ok ((List.range ((lo - hi + (-step) - 1).fdiv (-step)).toNat).map fun k => lo + step * Int.ofNat k)

/-- From `prior_box`: compute the per-layer min/max sizes.  With more than two
input layers the sizes are derived from `min_ratio`/`max_ratio` (Python 2
integer division and `xrange`); otherwise the caller-provided lists are
checked by `assert` statements. -/
def computeSizes (minSizes maxSizes : Option (List PyItem)) (numLayer : Nat)
    (minR maxR : Int) (baseSize : ℚ) : Except String (List PyItem × List PyItem) :=
  if numLayer ≤ 2 then
    match minSizes, maxSizes with
    | some ms, some xs =>
      if ms.length = numLayer ∧ xs.length = numLayer then .ok (ms, xs)
      else .error "AssertionError"
    | _, _ => .error "AssertionError"
  else
    let step := (maxR - minR).fdiv (Int.ofNat numLayer - 2)
    match pyRange minR (maxR + 1) step with
    | .error e => .error e
    | .ok rs =>
      let ms := rs.map fun r => PyItem.item (.snum (baseSize * (r : ℚ) / 100))
      let xs := rs.map fun r => PyItem.item (.snum (baseSize * ((r : ℚ) + (step : ℚ)) / 100))
      .ok (.item (.snum (baseSize * (1/10))) :: ms, .item (.snum (baseSize * (2/10))) :: xs)

/-- Error message for a bad `aspect_ratios` argument of `prior_box`. -/
def msgAspect : String :=
  "aspect_ratios should be list and the length of inputs and aspect_ratios should be the same."

/-- Error message for a bad `step_h` argument of `prior_box`. -/
def msgStepH : String :=
  "step_h should be list and the length of inputs and step_h should be the same."

/-- Error message for a bad `step_w` argument of `prior_box`. -/
def msgStepW : String :=
  "step_w should be list and the length of inputs and step_w should be the same."

/-- Error message for a bad `steps` argument of `prior_box` (the source
message indeed says `step_w`). -/
def msgSteps : String :=
  "steps should be list and the length of inputs and step_w should be the same."

/-- Is the value a list of exactly `n` elements? -/
def lenOk (v : PyVal) (n : Nat) : Bool :=
  match v with
  | .plist xs => xs.length == n
  | _ => false

/-- A per-layer argument that is truthy but not a list of length `n` — the
condition under which `prior_box` raises `ValueError` for it. -/
def badLenB (v : PyVal) (n : Nat) : Bool := v.truthy && !(lenOk v n)

/-- From the inner `_prior_box_` helper of `prior_box`: create the two output
temporaries and append one `prior_box` operator.  The temporaries' shapes are
runtime-inferred and not fixed by the spec beyond a 4-D per-layer layout;
modelled as [H, W, boxes-per-position, 4] from the input's NCHW shape. -/
def priorBoxOne (g : Prog) (input image : Var) (minSize maxSize aspectRatio : List PyItem)
    (variance : List ℚ) (flip clip : Bool) (stepWv stepHv : PyVal) (off : ℚ) :
    (Var × Var) × Prog :=
  let npp := minSize.length + maxSize.length + aspectRatio.length
  let a := createTmp g input.dtype [input.shape.getD 2 0, input.shape.getD 3 0, npp, 4] 1
  let b := createTmp a.2 input.dtype [input.shape.getD 2 0, input.shape.getD 3 0, npp, 4] 1
  ((a.1, b.1), appendOp b.2 ⟨"prior_box", [("Input", some input), ("Image", some image)],
    [("Boxes", a.1), ("Variances", b.1)],
    [("min_sizes", .plist minSize), ("max_sizes", .plist maxSize),
     ("aspect_ratios", .plist aspectRatio),
     ("variances", .plist (variance.map fun q => .item (.snum q))),
     ("flip", .scal (.sbool flip)), ("clip", .scal (.sbool clip)),
     ("step_w", stepWv), ("step_h", stepHv), ("offset", .scal (.snum off))]⟩)

/-- From `prior_box`: the `for i, input in enumerate(inputs)` loop.  Note the
source forwards `step_h[i]` only under the `step_w` truthiness test
(`step_w[i] if step_w else 0.0, step_h[i] if step_w else 0.0`). -/
def priorBoxLoop (image : Var) (ms xs : List PyItem) (ars : PyVal)
    (variance : List ℚ) (flip clip : Bool) (stepWv stepHv : PyVal) (off : ℚ) :
    List Var → Nat → Prog → List (Var × Var) →
    Except (String × Prog) (List (Var × Var) × Prog)
  | [], _, g, acc => .ok (acc, g)
  | inp :: rest, i, g, acc =>
    match pyIndex ms i with
    | .error e => .error (e, g)
    | .ok msi =>
      match pyIndex xs i with
      | .error e => .error (e, g)
      | .ok xsi =>
        match (if ars.truthy then pyIndexVal ars i else .ok (.plist [])) with
        | .error e => .error (e, g)
        | .ok ar0 =>
          match (if stepWv.truthy then pyIndexVal stepWv i else .ok (.scal (.snum 0))) with
          | .error e => .error (e, g)
          | .ok swi =>
            match (if stepWv.truthy then pyIndexVal stepHv i else .ok (.scal (.snum 0))) with
            | .error e => .error (e, g)
            | .ok shi =>
              let r := priorBoxOne g inp image msi.wrap xsi.wrap (valWrap ar0)
                variance flip clip swi shi off
              priorBoxLoop image ms xs ars variance flip clip stepWv stepHv off
                rest (i + 1) r.2 (acc ++ [r.1])

/-- From the inner `_reshape_with_axis_` helper of `prior_box`. -/
def reshapeWithAxis (g : Prog) (x : Var) (axis : Nat) :
    Except (String × Prog) (Var × Prog) :=
  if 0 < axis ∧ axis < x.shape.length then
    .ok (opsReshape g x [-1, Int.ofNat ((x.shape.drop axis).foldl (· * ·) 1)])
  else
    .error ("The axis should be smaller than the arity of input and bigger than 0.", g)

/-- From `prior_box`: reshape every per-layer box/variance result with
`_reshape_with_axis_(•, axis=3)`. -/
def reshapePairs : List (Var × Var) → List Var → List Var → Prog →
    Except (String × Prog) ((List Var × List Var) × Prog)
  | [], bs, vs, g => .ok ((bs, vs), g)
  | (b, v) :: rest, bs, vs, g =>
    match reshapeWithAxis g b 3 with
    | .error e => .error e
    | .ok (rb, g1) =>
      match reshapeWithAxis g1 v 3 with
      | .error e => .error e
      | .ok (rv, g2) => reshapePairs rest (bs ++ [rb]) (vs ++ [rv]) g2

/-- A placeholder variable pair used as a lookup default. -/
def dPair : Var × Var := (⟨0, "", [], 1⟩, ⟨0, "", [], 1⟩)

/-- From `prior_box` in detection.py: validate the per-layer arguments, then
append one `prior_box` operator per input layer, and concatenate the
(reshaped) results when there is more than one layer.  The `inputs` list is
modelled as a Lean list, so the leading `assert isinstance(inputs, list)`
always passes.  Errors carry the program as it stood when they were
raised. -/
def priorBox (g : Prog) (inputs : List Var) (image : Var)
    (minR maxR : Int) (aspectRatios : PyVal) (baseSize : ℚ)
    (steps stepW stepH : PyVal) (off : ℚ) (variance : List ℚ)
    (flip clip : Bool) (minSizes maxSizes : Option (List PyItem)) :
    Except (String × Prog) ((Var × Var) × Prog) :=
  let numLayer := inputs.length
  match computeSizes minSizes maxSizes numLayer minR maxR baseSize with
  | .error e => .error (e, g)
  | .ok sizes =>
    if badLenB aspectRatios numLayer then .error (msgAspect, g)
    else if badLenB stepH numLayer then .error (msgStepH, g)
    else if badLenB stepW numLayer then .error (msgStepW, g)
    else if badLenB steps numLayer then .error (msgSteps, g)
    else
      let stepWv := if steps.truthy then steps else stepW
      let stepHv := if steps.truthy then steps else stepH
      match priorBoxLoop image sizes.1 sizes.2 aspectRatios variance flip clip
          stepWv stepHv off inputs 0 g [] with
      | .error e => .error e
      | .ok (results, g2) =>
        if results.length = 1 then
          .ok (((results.headD dPair).1, (results.headD dPair).2), g2)
        else
          match reshapePairs results [] [] g2 with
          | .error e => .error e
          | .ok ((bs, vs), g3) =>
            let rb := tensorConcat g3 bs
            let rv := tensorConcat rb.2 vs
            .ok ((rb.1, rv.1), rv.2)

/-- The operator nodes appended by a successful `prior_box` call (empty if it
raised). -/
def priorBoxOps (g : Prog) (inputs : List Var) (image : Var)
    (minR maxR : Int) (aspectRatios : PyVal) (baseSize : ℚ)
    (steps stepW stepH : PyVal) (off : ℚ) (variance : List ℚ)
    (flip clip : Bool) (minSizes maxSizes : Option (List PyItem)) : List OpNode :=
  match priorBox g inputs image minR maxR aspectRatios baseSize steps stepW stepH off
      variance flip clip minSizes maxSizes with
  | .ok (_, g2) => g2.ops.drop g.ops.length
  | .error _ => []

/-- A placeholder operator node used as a lookup default. -/
def dOp : OpNode := ⟨"", [], [], []⟩

/-- First output variable of an operator node. -/
def headOut (o : OpNode) : Var := (o.outputs.headD ("", ⟨0, "", [], 1⟩)).2

/-- Second output variable of an operator node. -/
def sndOut (o : OpNode) : Var := (o.outputs.getD 1 ("", ⟨0, "", [], 1⟩)).2

end SSDDetection

namespace SSDDetection.Native

/-!
Numeric models of the three native operator kernels that are not under src/
(only the Python wrappers that append them are).  Each definition is modelled
from the specification (sections 4.2, 4.3 and 4.5); floats are embedded as
rationals.
-/

/-- Modelled from the spec (section 4.3; the native `target_assign` kernel is
not under src/): one output cell of `target_assign` for instance `i`, column
`j`.  A column listed among the instance's negative indices is overwritten
with the broadcast mismatch value and weight 1; otherwise a matched column
(`MatchIndices[i][j] = id ≥ 0`) copies the feature vector
`X[lod[i] + id][j mod P]` with weight 1, and an unmatched column receives the
broadcast mismatch value with weight 0. -/
def taCell (X : List (List (List ℚ))) (lod : List Nat) (mi : List (List Int))
    (negs : List (List Nat)) (mismatch : ℚ) (K : Nat) (i j : Nat) : List ℚ × ℚ :=
  if j ∈ negs.getD i [] then (List.replicate K mismatch, 1)
  else if 0 ≤ (mi.getD i []).getD j (-1) then
    ((X.getD (lod.getD i 0 + ((mi.getD i []).getD j (-1)).toNat) []).getD
      (j % (X.getD (lod.getD i 0 + ((mi.getD i []).getD j (-1)).toNat) []).length) [], 1)
  else (List.replicate K mismatch, 0)

/-- Modelled from the spec: the `Out` tensor of `target_assign` ([N, P, K]). -/
def targetAssignOut (X : List (List (List ℚ))) (lod : List Nat) (mi : List (List Int))
    (negs : List (List Nat)) (mismatch : ℚ) (N P K : Nat) : List (List (List ℚ)) :=
  (List.range N).map fun i => (List.range P).map fun j =>
    (taCell X lod mi negs mismatch K i j).1

/-- Modelled from the spec: the `OutWeight` tensor of `target_assign`
([N, P, 1], the weight scalar of each cell). -/
def targetAssignWeight (X : List (List (List ℚ))) (lod : List Nat) (mi : List (List Int))
    (negs : List (List Nat)) (mismatch : ℚ) (N P K : Nat) : List (List ℚ) :=
  (List.range N).map fun i => (List.range P).map fun j =>
    (taCell X lod mi negs mismatch K i j).2

/-- The loss ranking used by the hard-negative miner: strictly higher
classification loss first, ties broken by ascending prior index
(spec section 4.5). -/
def RankLE (cls : List ℚ) (a b : Nat) : Prop :=
  cls.getD b 0 < cls.getD a 0 ∨ (cls.getD a 0 = cls.getD b 0 ∧ a ≤ b)

/-- Boolean form of `RankLE`. -/
def rankLEb (cls : List ℚ) (a b : Nat) : Bool :=
  decide (cls.getD b 0 < cls.getD a 0) ||
    (decide (cls.getD a 0 = cls.getD b 0) && decide (a ≤ b))

/-- Insertion into a loss-ranked list. -/
def rankedInsert (cls : List ℚ) (x : Nat) : List Nat → List Nat
  | [] => [x]
  | y :: ys => if rankLEb cls x y then x :: y :: ys else y :: rankedInsert cls x ys

/-- Insertion sort by descending loss, ties by ascending index. -/
def rankedSort (cls : List ℚ) : List Nat → List Nat
  | [] => []
  | x :: xs => rankedInsert cls x (rankedSort cls xs)

/-- Modelled from the spec: the number of positive (matched) priors of one
instance. -/
def numPosOf (mi : List Int) : Nat := (mi.filter (fun v => decide (0 ≤ v))).length

/-- Modelled from the spec: candidate negatives, i.e. priors that are
unmatched (`MatchIndices = -1`) and whose match distance is below the
negative-distance threshold (section 4.5). -/
def candNegs (mi : List Int) (md : List ℚ) (thr : ℚ) : List Nat :=
  (List.range mi.length).filter fun j =>
    decide (mi.getD j 0 = -1) && decide (md.getD j 0 < thr)

/-- Modelled from the spec: the native `mine_hard_examples` kernel (not under
src/) with `max_negative` mining, for one instance: rank the candidate
negatives by classification loss (descending, ties by ascending index) and
keep the first `floor(neg_pos_ratio * num_pos)`. -/
def mineHard (cls : List ℚ) (mi : List Int) (md : List ℚ) (rNP thr : ℚ) : List Nat :=
  (rankedSort cls (candNegs mi md thr)).take (Int.toNat ⌊rNP * (numPosOf mi : ℚ)⌋)

/-- Entry (r, c) of a distance matrix given as a list of rows. -/
def dAt (dist : List (List ℚ)) (r c : Nat) : ℚ := (dist.getD r []).getD c 0

/-- Number of columns of the (rectangular) distance matrix. -/
def colsOf (dist : List (List ℚ)) : Nat := (dist.headD []).length

/-- Row-major list of the still-available positive entries: row unmatched,
column unmatched, similarity strictly positive (spec section 4.2). -/
def candList (dist : List (List ℚ)) (usedR usedC : List Nat) : List (Nat × Nat) :=
  (((List.range dist.length).flatMap fun r =>
    (List.range (colsOf dist)).map fun c => (r, c))).filter
    fun p => decide (p.1 ∉ usedR) && decide (p.2 ∉ usedC) && decide (0 < dAt dist p.1 p.2)

/-- One step of the first-encountered-maximum scan (a strictly greater entry
replaces the current best, so the earliest maximal entry in row-major order
wins). -/
def pickStep (dist : List (List ℚ)) (acc : Option (Nat × Nat)) (p : Nat × Nat) :
    Option (Nat × Nat) :=
  match acc with
  | none => some p
  | some q => if dAt dist q.1 q.2 < dAt dist p.1 p.2 then some p else acc

/-- First-encountered maximum of a candidate list. -/
def firstMax (dist : List (List ℚ)) (l : List (Nat × Nat)) : Option (Nat × Nat) :=
  l.foldl (pickStep dist) none

/-- Modelled from the spec: the greedy primary pass of the native
`bipartite_match` operator (kernel not under src/, section 4.2): repeatedly
select the globally maximal remaining positive entry (row-major ties, first
encountered wins), record the match, and remove its row and column; stop when
the rows are exhausted or no positive entry remains. -/
def bmGreedy (dist : List (List ℚ)) : Nat → List Nat → List Nat →
    List (Nat × Nat) → List (Nat × Nat)
  | 0, _, _, acc => acc
  | fuel + 1, usedR, usedC, acc =>
    match firstMax dist (candList dist usedR usedC) with
    | none => acc
    | some p => bmGreedy dist fuel (p.1 :: usedR) (p.2 :: usedC) (acc ++ [p])

/-- The primary-pass matches of `bipartite_match`. -/
def bmPrimary (dist : List (List ℚ)) : List (Nat × Nat) :=
  bmGreedy dist dist.length [] [] []

/-- One step of the best-row scan of the fallback pass. -/
def pickRowStep (dist : List (List ℚ)) (c : Nat) (acc : Option Nat) (r : Nat) : Option Nat :=
  match acc with
  | none => some r
  | some q => if dAt dist q c < dAt dist r c then some r else acc

/-- Modelled from the spec: the fallback best row of a still-unmatched column
(duplicate row assignment permitted); `none` when the column has no strictly
positive entry. -/
def bestRow (dist : List (List ℚ)) (c : Nat) : Option Nat :=
  ((List.range dist.length).filter fun r => decide (0 < dAt dist r c)).foldl
    (pickRowStep dist c) none

/-- Modelled from the spec: `ColToRowMatchIndices` of `bipartite_match` for
one instance — the primary-pass match of each column, else its fallback best
row, else -1. -/
def bmIndices (dist : List (List ℚ)) : List Int :=
  (List.range (colsOf dist)).map fun c =>
    match (bmPrimary dist).find? (fun p => p.2 == c) with
    | some p => Int.ofNat p.1
    | none =>
      match bestRow dist c with
      | some r => Int.ofNat r
      | none => -1

/-- Modelled from the spec: `ColToRowMatchDist` of `bipartite_match` — the
similarity of the recorded match, or -1.0 for an unmatched column. -/
def bmDists (dist : List (List ℚ)) : List ℚ :=
  (List.range (colsOf dist)).map fun c =>
    match (bmPrimary dist).find? (fun p => p.2 == c) with
    | some p => dAt dist p.1 p.2
    | none =>
      match bestRow dist c with
      | some r => dAt dist r c
      | none => -1

end SSDDetection.Native

namespace SSDDetection

/-- C9 (part): the `multiclass_nms` node appended by `detection_output`. -/
def detectionOutputLastOp (g : Prog) (scores loc priorBox priorBoxVar : Var)
    (backgroundLabel : Int) (nmsThreshold : ℚ) (nmsTopK : Int) (keepTopK : Int)
    (scoreThreshold : ℚ) (nmsEta : ℚ) : Option OpNode :=
  (detectionOutput g scores loc priorBox priorBoxVar backgroundLabel nmsThreshold
    nmsTopK keepTopK scoreThreshold nmsEta).2.ops.getLast?

end SSDDetection

namespace SSDDetection

/-- C9: the `multiclass_nms` operator appended by `detection_output` always
receives `background_label = 0` and `nms_eta = 1.0`, and only `nms_threshold`,
`nms_top_k`, `keep_top_k`, `score_threshold` are forwarded from the arguments;
consequently two calls differing only in `background_label` or `nms_eta`
construct identical graphs. -/
theorem detection_output_hardcodes_background_and_eta
    (g : Prog) (scores loc priorBox priorBoxVar : Var)
    (bl bl' : Int) (nt : ℚ) (ntk ktk : Int) (st : ℚ) (ne ne' : ℚ) :
    (detectionOutputLastOp g scores loc priorBox priorBoxVar bl nt ntk ktk st ne).map
        (fun o => (o.optype, o.attrs)) =
      some ("multiclass_nms",
        [("background_label", .scal (.sint 0)),
         ("nms_threshold", .scal (.snum nt)),
         ("nms_top_k", .scal (.sint ntk)),
         ("keep_top_k", .scal (.sint ktk)),
         ("score_threshold", .scal (.snum st)),
         ("nms_eta", .scal (.snum 1))]) ∧
    detectionOutput g scores loc priorBox priorBoxVar bl nt ntk ktk st ne =
      detectionOutput g scores loc priorBox priorBoxVar bl' nt ntk ktk st ne' := by
  constructor
  · simp only [detectionOutputLastOp, detectionOutput, boxCoder, createTmp, appendOp]
    rw [List.append_assoc]
    simp [List.getLast?_append]
  · rfl

/-- C1: for every `ssd_loss` call with `mining_type = 'max_negative'`, the
appended operators follow exactly the pipeline order `iou_similarity`,
`bipartite_match`, a first `target_assign` of `gt_label` with
`mismatch_value = background_label`, `softmax_with_cross_entropy`,
`mine_hard_examples`, `box_coder` with code type `encode_center_size`, the
regression `target_assign` and the classification `target_assign` (the latter
receiving the mined negative indices), then the final loss composition. -/
theorem ssd_loss_pipeline_order (g : Prog)
    (location confidence gtBox gtLabel priorBox : Var)
    (priorBoxVar : Option Var) (bl : Int) (ot rNP nOv llw clw : ℚ)
    (mt : String) (ss : Option Int) :
    ((ssdLossOps g location confidence gtBox gtLabel priorBox priorBoxVar bl ot rNP nOv
        llw clw mt "max_negative" ss).map OpNode.optype).filter
        (fun s => decide (s ∈ ["iou_similarity", "bipartite_match", "target_assign",
          "softmax_with_cross_entropy", "mine_hard_examples", "box_coder"])) =
      ["iou_similarity", "bipartite_match", "target_assign", "softmax_with_cross_entropy",
       "mine_hard_examples", "box_coder", "target_assign", "target_assign",
       "softmax_with_cross_entropy"] ∧
    ((ssdLossOps g location confidence gtBox gtLabel priorBox priorBoxVar bl ot rNP nOv
        llw clw mt "max_negative" ss).getD 3 dOp).attrs =
      [("mismatch_value", .scal (.sint bl))] ∧
    ((ssdLossOps g location confidence gtBox gtLabel priorBox priorBoxVar bl ot rNP nOv
        llw clw mt "max_negative" ss).getD 3 dOp).inputs.lookup "X" =
      some (some (headOut ((ssdLossOps g location confidence gtBox gtLabel priorBox
        priorBoxVar bl ot rNP nOv llw clw mt "max_negative" ss).getD 2 dOp))) ∧
    ((ssdLossOps g location confidence gtBox gtLabel priorBox priorBoxVar bl ot rNP nOv
        llw clw mt "max_negative" ss).getD 10 dOp).attrs =
      [("code_type", .scal (.sstr "encode_center_size"))] ∧
    ((ssdLossOps g location confidence gtBox gtLabel priorBox priorBoxVar bl ot rNP nOv
        llw clw mt "max_negative" ss).getD 12 dOp).inputs.lookup "NegIndices" =
      some (some (headOut ((ssdLossOps g location confidence gtBox gtLabel priorBox
        priorBoxVar bl ot rNP nOv llw clw mt "max_negative" ss).getD 9 dOp))) := by
  refine ⟨?_, ?_, ?_, ?_, ?_⟩ <;>
    simp [ssdLossOps, ssdLoss, iouSimilarity, bipartiteMatchLayer, opsReshape,
      targetAssignLayer, reshapeTo2d, tensorCast, softmaxWithCE, smoothL1, elemMul,
      elemAdd, scaleBy, boxCoder, createTmp, appendOp, dOp, headOut,
      List.append_assoc, List.drop_left, List.lookup]

/-- C2: for inputs of the documented shapes (location [N, Np, 4], confidence
[N, Np, C], gt boxes [Ng, 4] with N LoD segments, gt labels [Ng, 1],
prior boxes [Np, 4]), `ssd_loss` returns
`conf_loss_weight * conf_loss + loc_loss_weight * loc_loss` where `conf_loss`
is the softmax cross-entropy of the reshaped confidence against the final
target labels multiplied elementwise by `target_conf_weight`, and `loc_loss`
is `smooth_l1(location, target_bbox)` multiplied elementwise by
`target_loc_weight`; the result has shape [N * Np, 1] and the layer appends
no reduction operator (the full operator list is given). -/
theorem ssd_loss_loss_composition (g : Prog) (n p c ng : Nat)
    (i1 i2 i3 i4 i5 : Nat) (dt1 dt2 dt3 dt4 dt5 : String)
    (priorBoxVar : Option Var) (bl : Int) (ot rNP nOv llw clw : ℚ)
    (mt : String) (ss : Option Int) :
    (let location : Var := ⟨i1, dt1, [n, p, 4], 1⟩
     let confidence : Var := ⟨i2, dt2, [n, p, c], 1⟩
     let gtBox : Var := ⟨i3, dt3, [ng, 4], n⟩
     let gtLabel : Var := ⟨i4, dt4, [ng, 1], n⟩
     let priorBox : Var := ⟨i5, dt5, [p, 4], 1⟩
     let tr := ssdLossOps g location confidence gtBox gtLabel priorBox priorBoxVar bl ot
       rNP nOv llw clw mt "max_negative" ss
     (ssdLossOut g location confidence gtBox gtLabel priorBox priorBoxVar bl ot
        rNP nOv llw clw mt "max_negative" ss).shape = [n * p, 1] ∧
     tr.map OpNode.optype =
       ["iou_similarity", "bipartite_match", "reshape", "target_assign", "reshape",
        "cast", "reshape", "softmax_with_cross_entropy", "reshape", "mine_hard_examples",
        "box_coder", "target_assign", "target_assign", "reshape", "cast",
        "softmax_with_cross_entropy", "reshape", "elementwise_mul", "reshape", "reshape",
        "smooth_l1", "reshape", "elementwise_mul", "scale", "scale", "elementwise_add"] ∧
     (tr.getD 25 dOp).inputs =
       [("X", some (headOut (tr.getD 23 dOp))), ("Y", some (headOut (tr.getD 24 dOp)))] ∧
     (tr.getD 23 dOp).attrs = [("scale", .scal (.snum clw))] ∧
     (tr.getD 23 dOp).inputs = [("X", some (headOut (tr.getD 17 dOp)))] ∧
     (tr.getD 24 dOp).attrs = [("scale", .scal (.snum llw))] ∧
     (tr.getD 24 dOp).inputs = [("X", some (headOut (tr.getD 22 dOp)))] ∧
     (tr.getD 17 dOp).inputs =
       [("X", some (headOut (tr.getD 15 dOp))), ("Y", some (headOut (tr.getD 16 dOp)))] ∧
     (tr.getD 15 dOp).inputs =
       [("Logits", some (headOut (tr.getD 4 dOp))), ("Label", some (headOut (tr.getD 14 dOp)))] ∧
     (tr.getD 16 dOp).inputs = [("X", some (sndOut (tr.getD 12 dOp)))] ∧
     (tr.getD 14 dOp).inputs = [("X", some (headOut (tr.getD 13 dOp)))] ∧
     (tr.getD 13 dOp).inputs = [("X", some (headOut (tr.getD 12 dOp)))] ∧
     (tr.getD 22 dOp).inputs =
       [("X", some (headOut (tr.getD 20 dOp))), ("Y", some (headOut (tr.getD 21 dOp)))] ∧
     (tr.getD 20 dOp).inputs =
       [("X", some (headOut (tr.getD 18 dOp))), ("Y", some (headOut (tr.getD 19 dOp)))] ∧
     (tr.getD 18 dOp).inputs = [("X", some location)] ∧
     (tr.getD 19 dOp).inputs = [("X", some (headOut (tr.getD 11 dOp)))] ∧
     (tr.getD 21 dOp).inputs = [("X", some (sndOut (tr.getD 11 dOp)))]) := by
  simp [ssdLossOps, ssdLossOut, ssdLoss, iouSimilarity, bipartiteMatchLayer, opsReshape,
    targetAssignLayer, reshapeTo2d, tensorCast, softmaxWithCE, smoothL1, elemMul,
    elemAdd, scaleBy, boxCoder, createTmp, appendOp, dOp, headOut, sndOut, resolveShape,
    List.append_assoc, List.drop_left]

/-- C3: `ssd_loss` raises `ValueError("Only support mining_type == max_negative
now.")` if and only if `mining_type` is not `'max_negative'`, and the failure
happens before any operator node is appended, so the graph is unchanged on
error. -/
theorem ssd_loss_mining_type_guard (g : Prog)
    (location confidence gtBox gtLabel priorBox : Var)
    (priorBoxVar : Option Var) (bl : Int) (ot rNP nOv llw clw : ℚ)
    (mt mk : String) (ss : Option Int) :
    ssdLossIsOk g location confidence gtBox gtLabel priorBox priorBoxVar bl ot rNP nOv
        llw clw mt mk ss = (mk == "max_negative") ∧
    ssdLossErr g location confidence gtBox gtLabel priorBox priorBoxVar bl ot rNP nOv
        llw clw mt mk ss =
      (if mk = "max_negative" then none
       else some ("Only support mining_type == max_negative now.", g)) := by
  by_cases h : mk = "max_negative" <;>
    simp [ssdLossIsOk, ssdLossErr, ssdLoss, h]

/-- C4: the `mine_hard_examples` operator appended by `ssd_loss` receives its
`neg_dist_threshold` attribute from the `neg_pos_ratio` argument (not from
`neg_overlap`), and the `neg_overlap` argument has no effect at all: two calls
differing only in `neg_overlap` construct identical graphs. -/
theorem ssd_loss_neg_overlap_unused (g : Prog)
    (location confidence gtBox gtLabel priorBox : Var)
    (priorBoxVar : Option Var) (bl : Int) (ot rNP nOv nOv' llw clw : ℚ)
    (mt mk : String) (ss : Option Int) :
    ssdLoss g location confidence gtBox gtLabel priorBox priorBoxVar bl ot rNP nOv
        llw clw mt mk ss =
      ssdLoss g location confidence gtBox gtLabel priorBox priorBoxVar bl ot rNP nOv'
        llw clw mt mk ss ∧
    ((ssdLossOps g location confidence gtBox gtLabel priorBox priorBoxVar bl ot rNP nOv
        llw clw mt "max_negative" ss).filter
          (fun o => o.optype == "mine_hard_examples")).map OpNode.attrs =
      [[("neg_pos_ratio", .scal (.snum rNP)),
        ("neg_dist_threshold", .scal (.snum rNP)),
        ("mining_type", .scal (.sstr "max_negative")),
        ("sample_size", optIntVal ss)]] := by
  refine ⟨rfl, ?_⟩
  simp [ssdLossOps, ssdLoss, iouSimilarity, bipartiteMatchLayer, opsReshape,
    targetAssignLayer, reshapeTo2d, tensorCast, softmaxWithCE, smoothL1, elemMul,
    elemAdd, scaleBy, boxCoder, createTmp, appendOp,
    List.append_assoc, List.drop_left]

/-- C8: `prior_box` raises a `ValueError` when `aspect_ratios` is supplied
(truthy) but is not a list of length equal to the number of inputs, and
likewise for `step_h`, `step_w` and `steps`; each such error is raised before
any `prior_box` operator is appended (the program carried by the error is the
caller's, unchanged). -/
theorem prior_box_validation_errors (g : Prog) (inputs : List Var) (image : Var)
    (minR maxR : Int) (ar : PyVal) (baseSize : ℚ) (steps stepW stepH : PyVal)
    (off : ℚ) (variance : List ℚ) (flip clip : Bool)
    (minSizes maxSizes : Option (List PyItem)) (szs : List PyItem × List PyItem)
    (hsz : computeSizes minSizes maxSizes inputs.length minR maxR baseSize = .ok szs) :
    (badLenB ar inputs.length = true →
      priorBox g inputs image minR maxR ar baseSize steps stepW stepH off variance
        flip clip minSizes maxSizes = .error (msgAspect, g)) ∧
    (badLenB ar inputs.length = false → badLenB stepH inputs.length = true →
      priorBox g inputs image minR maxR ar baseSize steps stepW stepH off variance
        flip clip minSizes maxSizes = .error (msgStepH, g)) ∧
    (badLenB ar inputs.length = false → badLenB stepH inputs.length = false →
      badLenB stepW inputs.length = true →
      priorBox g inputs image minR maxR ar baseSize steps stepW stepH off variance
        flip clip minSizes maxSizes = .error (msgStepW, g)) ∧
    (badLenB ar inputs.length = false → badLenB stepH inputs.length = false →
      badLenB stepW inputs.length = false → badLenB steps inputs.length = true →
      priorBox g inputs image minR maxR ar baseSize steps stepW stepH off variance
        flip clip minSizes maxSizes = .error (msgSteps, g)) := by
  refine ⟨fun h1 => ?_, fun h1 h2 => ?_, fun h1 h2 h3 => ?_, fun h1 h2 h3 h4 => ?_⟩ <;>
    simp_all [priorBox, hsz]

/-- C8 witness: a concrete two-layer call whose `aspect_ratios` is a truthy
scalar; the size computation succeeds and `prior_box` raises the
`aspect_ratios` error with the graph unchanged. -/
theorem prior_box_validation_errors_witness :
    computeSizes (some [PyItem.item (.snum 10), PyItem.item (.snum 20)])
        (some [PyItem.item (.snum 30), PyItem.item (.snum 40)]) 2 20 90 300 =
      .ok ([PyItem.item (.snum 10), PyItem.item (.snum 20)],
           [PyItem.item (.snum 30), PyItem.item (.snum 40)]) ∧
    badLenB (.scal (.snum 2)) 2 = true ∧
    priorBox emptyProg
      [⟨1000, "float32", [1, 3, 8, 8], 1⟩, ⟨1001, "float32", [1, 3, 4, 4], 1⟩]
      ⟨1002, "float32", [1, 3, 300, 300], 1⟩ 20 90 (.scal (.snum 2)) 300
      (.scal .snone) (.scal .snone) (.scal .snone) (1/2) [] false false
      (some [PyItem.item (.snum 10), PyItem.item (.snum 20)])
      (some [PyItem.item (.snum 30), PyItem.item (.snum 40)]) =
    .error (msgAspect, emptyProg) :=
  ⟨by rfl, by decide,
    (prior_box_validation_errors emptyProg
      [⟨1000, "float32", [1, 3, 8, 8], 1⟩, ⟨1001, "float32", [1, 3, 4, 4], 1⟩]
      ⟨1002, "float32", [1, 3, 300, 300], 1⟩ 20 90 (.scal (.snum 2)) 300
      (.scal .snone) (.scal .snone) (.scal .snone) (1/2) [] false false
      (some [PyItem.item (.snum 10), PyItem.item (.snum 20)])
      (some [PyItem.item (.snum 30), PyItem.item (.snum 40)])
      ([PyItem.item (.snum 10), PyItem.item (.snum 20)],
       [PyItem.item (.snum 30), PyItem.item (.snum 40)]) (by rfl)).1 (by decide)⟩

/-- When the effective `step_w` is falsy, every operator appended by the
`prior_box` per-layer loop carries `step_w = 0.0` and `step_h = 0.0`. -/
theorem priorBoxLoop_zero_steps (image : Var) (ms xs : List PyItem) (ars : PyVal)
    (variance : List ℚ) (flip clip : Bool) (stepWv stepHv : PyVal) (off : ℚ)
    (hw : stepWv.truthy = false) :
    ∀ (inputs : List Var) (i : Nat) (g : Prog) (acc res : List (Var × Var)) (g2 : Prog),
      priorBoxLoop image ms xs ars variance flip clip stepWv stepHv off inputs i g acc =
        .ok (res, g2) →
      ∃ newOps, g2.ops = g.ops ++ newOps ∧ ∀ op ∈ newOps,
        op.attrs.lookup "step_w" = some (.scal (.snum 0)) ∧
        op.attrs.lookup "step_h" = some (.scal (.snum 0)) := by
  intro inputs
  induction inputs with
  | nil =>
    intro i g acc res g2 h
    simp only [priorBoxLoop, Except.ok.injEq, Prod.mk.injEq] at h
    exact ⟨[], by simp [← h.2], by simp⟩
  | cons inp rest ih =>
    intro i g acc res g2 h
    simp only [priorBoxLoop, hw, Bool.false_eq_true, if_false] at h
    cases hms : pyIndex ms i with
    | error e => rw [hms] at h; simp at h
    | ok msi =>
      rw [hms] at h
      cases hxs : pyIndex xs i with
      | error e => rw [hxs] at h; simp at h
      | ok xsi =>
        rw [hxs] at h
        cases har : (if ars.truthy then pyIndexVal ars i else .ok (.plist [])) with
        | error e => rw [har] at h; simp at h
        | ok ar0 =>
          rw [har] at h
          simp only [] at h
          obtain ⟨newOps, hops, hall⟩ := ih (i + 1) _ _ res g2 h
          refine ⟨List.drop g.ops.length (priorBoxOne g inp image msi.wrap xsi.wrap
            (valWrap ar0) variance flip clip (PyVal.scal (PyScal.snum 0))
            (PyVal.scal (PyScal.snum 0)) off).2.ops ++ newOps, ?_, ?_⟩
          · rw [hops]
            simp [priorBoxOne, createTmp, appendOp, List.append_assoc, List.drop_left]
          · intro op hop
            rcases List.mem_append.mp hop with h1 | h1
            · simp only [priorBoxOne, createTmp, appendOp, List.drop_left,
                List.mem_singleton] at h1
              subst h1
              constructor <;> simp [List.lookup]
            · exact hall op h1

/-- The single operator node appended by `opsReshape`. -/
theorem opsReshape_ops (g : Prog) (x : Var) (ns : List Int) :
    (opsReshape g x ns).2.ops = g.ops ++ [⟨"reshape", [("X", some x)],
      [("Out", (opsReshape g x ns).1)],
      [("shape", .plist (ns.map fun d => .item (.sint d)))]⟩] := rfl

/-- Every operator appended by the post-loop reshape phase of `prior_box`
is a `reshape`. -/
theorem reshapePairs_optype :
    ∀ (prs : List (Var × Var)) (bs vs : List Var) (g : Prog)
      (res : List Var × List Var) (g2 : Prog),
      reshapePairs prs bs vs g = .ok (res, g2) →
      ∃ newOps, g2.ops = g.ops ++ newOps ∧ ∀ op ∈ newOps, op.optype = "reshape" := by
  intro prs
  induction prs with
  | nil =>
    intro bs vs g res g2 h
    simp only [reshapePairs, Except.ok.injEq, Prod.mk.injEq] at h
    exact ⟨[], by simp [← h.2], by simp⟩
  | cons pv rest ih =>
    intro bs vs g res g2 h
    obtain ⟨b, v⟩ := pv
    simp only [reshapePairs] at h
    cases hrb : reshapeWithAxis g b 3 with
    | error e => rw [hrb] at h; simp at h
    | ok p1 =>
      obtain ⟨rb, g1⟩ := p1
      rw [hrb] at h
      simp only [] at h
      cases hrv : reshapeWithAxis g1 v 3 with
      | error e => rw [hrv] at h; simp at h
      | ok p2 =>
        obtain ⟨rv, gm⟩ := p2
        rw [hrv] at h
        simp only [] at h
        obtain ⟨newOps, hops, hall⟩ := ih _ _ _ res g2 h
        have hb : ∃ ob, g1.ops = g.ops ++ [ob] ∧ ob.optype = "reshape" := by
          simp only [reshapeWithAxis] at hrb
          by_cases hc : 0 < 3 ∧ 3 < b.shape.length
          · rw [if_pos hc] at hrb
            simp only [Except.ok.injEq] at hrb
            have h2 := congrArg Prod.snd hrb
            simp only [] at h2
            exact ⟨_, by rw [← h2, opsReshape_ops], rfl⟩
          · rw [if_neg hc] at hrb; simp at hrb
        have hv : ∃ ov, gm.ops = g1.ops ++ [ov] ∧ ov.optype = "reshape" := by
          simp only [reshapeWithAxis] at hrv
          by_cases hc : 0 < 3 ∧ 3 < v.shape.length
          · rw [if_pos hc] at hrv
            simp only [Except.ok.injEq] at hrv
            have h2 := congrArg Prod.snd hrv
            simp only [] at h2
            exact ⟨_, by rw [← h2, opsReshape_ops], rfl⟩
          · rw [if_neg hc] at hrv; simp at hrv
        obtain ⟨ob, hob, hobt⟩ := hb
        obtain ⟨ov, hov, hovt⟩ := hv
        refine ⟨ob :: ov :: newOps, ?_, ?_⟩
        · rw [hops, hov, hob]
          simp [List.append_assoc]
        · intro op hop
          rcases List.mem_cons.mp hop with h1 | h1
          · subst h1; exact hobt
          · rcases List.mem_cons.mp h1 with h2 | h2
            · subst h2; exact hovt
            · exact hall op h2

/-- C10: when `step_w` is falsy (and `steps` is too), `prior_box` ignores the
`step_h` argument: every appended `prior_box` operator receives `0.0` as both
its width step and its height step. -/
theorem prior_box_step_h_ignored_without_step_w (g : Prog) (inputs : List Var)
    (image : Var) (minR maxR : Int) (ar : PyVal) (baseSize : ℚ)
    (steps stepW stepH : PyVal) (off : ℚ) (variance : List ℚ) (flip clip : Bool)
    (minSizes maxSizes : Option (List PyItem))
    (hw : stepW.truthy = false) (hs : steps.truthy = false) :
    (priorBoxOps g inputs image minR maxR ar baseSize steps stepW stepH off variance
        flip clip minSizes maxSizes).all
      (fun o => (o.optype != "prior_box") ||
        ((o.attrs.lookup "step_w" == some (.scal (.snum 0))) &&
         (o.attrs.lookup "step_h" == some (.scal (.snum 0))))) = true := by
  unfold priorBoxOps
  cases hpb : priorBox g inputs image minR maxR ar baseSize steps stepW stepH off
      variance flip clip minSizes maxSizes with
  | error e => simp
  | ok r =>
    obtain ⟨rv, g2⟩ := r
    simp only []
    simp only [priorBox] at hpb
    cases hcs : computeSizes minSizes maxSizes inputs.length minR maxR baseSize with
    | error e => rw [hcs] at hpb; simp at hpb
    | ok szs =>
      rw [hcs] at hpb
      simp only [] at hpb
      by_cases h1 : badLenB ar inputs.length = true
      · rw [if_pos h1] at hpb; simp at hpb
      · rw [if_neg h1] at hpb
        by_cases h2 : badLenB stepH inputs.length = true
        · rw [if_pos h2] at hpb; simp at hpb
        · rw [if_neg h2] at hpb
          by_cases h3 : badLenB stepW inputs.length = true
          · rw [if_pos h3] at hpb; simp at hpb
          · rw [if_neg h3] at hpb
            by_cases h4 : badLenB steps inputs.length = true
            · rw [if_pos h4] at hpb; simp at hpb
            · rw [if_neg h4] at hpb
              rw [hs] at hpb
              simp only [Bool.false_eq_true, if_false] at hpb
              cases hlp : priorBoxLoop image szs.1 szs.2 ar variance flip clip
                  stepW stepH off inputs 0 g [] with
              | error e => rw [hlp] at hpb; simp at hpb
              | ok pr =>
                obtain ⟨results, gl⟩ := pr
                rw [hlp] at hpb
                simp only [] at hpb
                obtain ⟨l1, hl1, hall1⟩ := priorBoxLoop_zero_steps image szs.1 szs.2
                  ar variance flip clip stepW stepH off hw inputs 0 g [] results gl hlp
                by_cases hlen : results.length = 1
                · rw [if_pos hlen] at hpb
                  simp only [Except.ok.injEq, Prod.mk.injEq] at hpb
                  rw [← hpb.2, hl1, List.drop_left]
                  rw [List.all_eq_true]
                  intro op hop
                  simp [(hall1 op hop).1, (hall1 op hop).2]
                · rw [if_neg hlen] at hpb
                  cases hrp : reshapePairs results [] [] gl with
                  | error e => rw [hrp] at hpb; simp at hpb
                  | ok q =>
                    obtain ⟨⟨bs, vs⟩, g3⟩ := q
                    rw [hrp] at hpb
                    simp only [] at hpb
                    obtain ⟨l2, hl2, hall2⟩ := reshapePairs_optype results [] [] gl
                      (bs, vs) g3 hrp
                    simp only [Except.ok.injEq, Prod.mk.injEq] at hpb
                    rw [← hpb.2]
                    simp only [tensorConcat, createTmp, appendOp]
                    rw [hl2, hl1]
                    simp only [List.append_assoc, List.drop_left]
                    rw [List.all_eq_true]
                    intro op hop
                    simp only [List.mem_append, List.mem_singleton, List.mem_cons,
                      List.not_mem_nil, or_false] at hop
                    rcases hop with hop | hop | hop | hop
                    · simp [(hall1 op hop).1, (hall1 op hop).2]
                    · simp [hall2 op hop]
                    · subst hop; simp
                    · subst hop; simp

/-- C10 witness: a concrete one-layer call with `step_w` and `steps` not
supplied but `step_h` supplied; the single appended `prior_box` operator has
both step attributes equal to `0.0`. -/
theorem prior_box_step_h_ignored_without_step_w_witness :
    PyVal.truthy (.scal .snone) = false ∧
    (priorBoxOps emptyProg [⟨1000, "float32", [1, 3, 8, 8], 1⟩]
        ⟨1002, "float32", [1, 3, 300, 300], 1⟩ 20 90 (.plist [.item (.snum 2)]) 300
        (.scal .snone) (.scal .snone) (.plist [.item (.snum 16)]) (1/2) [] false false
        (some [PyItem.item (.snum 10)]) (some [PyItem.item (.snum 30)])).all
      (fun o => (o.optype != "prior_box") ||
        ((o.attrs.lookup "step_w" == some (.scal (.snum 0))) &&
         (o.attrs.lookup "step_h" == some (.scal (.snum 0))))) = true :=
  ⟨rfl, prior_box_step_h_ignored_without_step_w emptyProg
    [⟨1000, "float32", [1, 3, 8, 8], 1⟩] ⟨1002, "float32", [1, 3, 300, 300], 1⟩
    20 90 (.plist [.item (.snum 2)]) 300 (.scal .snone) (.scal .snone)
    (.plist [.item (.snum 16)]) (1/2) [] false false
    (some [PyItem.item (.snum 10)]) (some [PyItem.item (.snum 30)]) rfl rfl⟩

end SSDDetection

namespace SSDDetection.Native

/-- Indexing a map over `List.range`. -/
theorem getD_map_range {α : Type} (f : ℕ → α) (N i : ℕ) (d : α) (h : i < N) :
    ((List.range N).map f).getD i d = f i := by
  rw [List.getD_eq_getElem?_getD, List.getElem?_map, List.getElem?_range h]
  rfl

/-- C5: `target_assign` semantics — for every instance `i` and column `j`,
a matched column (`MatchIndices[i][j] = id ≥ 0`) not listed among the
negative indices copies the source row `lod[i] + id` of X (with the column
index taken modulo the per-instance row block) with weight 1.0; an unmatched
column not listed receives the broadcast mismatch value with weight 0.0; and
every column listed in the instance's negative indices is overwritten with
the mismatch value and weight 1.0. -/
theorem target_assign_semantics (X : List (List (List ℚ))) (lod : List Nat)
    (mi : List (List Int)) (negs : List (List Nat)) (mismatch : ℚ) (N P K : Nat)
    (i j : Nat) (hi : i < N) (hj : j < P) :
    (j ∈ negs.getD i [] →
      ((targetAssignOut X lod mi negs mismatch N P K).getD i []).getD j [] =
        List.replicate K mismatch ∧
      ((targetAssignWeight X lod mi negs mismatch N P K).getD i []).getD j 0 = 1) ∧
    (j ∉ negs.getD i [] → 0 ≤ (mi.getD i []).getD j (-1) →
      ((targetAssignOut X lod mi negs mismatch N P K).getD i []).getD j [] =
        (X.getD (lod.getD i 0 + ((mi.getD i []).getD j (-1)).toNat) []).getD
          (j % (X.getD (lod.getD i 0 + ((mi.getD i []).getD j (-1)).toNat) []).length) [] ∧
      ((targetAssignWeight X lod mi negs mismatch N P K).getD i []).getD j 0 = 1) ∧
    (j ∉ negs.getD i [] → (mi.getD i []).getD j (-1) < 0 →
      ((targetAssignOut X lod mi negs mismatch N P K).getD i []).getD j [] =
        List.replicate K mismatch ∧
      ((targetAssignWeight X lod mi negs mismatch N P K).getD i []).getD j 0 = 0) := by
  unfold targetAssignOut targetAssignWeight
  rw [getD_map_range _ _ _ _ hi, getD_map_range _ _ _ _ hj,
    getD_map_range _ _ _ _ hi, getD_map_range _ _ _ _ hj]
  refine ⟨fun hn => ?_, fun hn hm => ?_, fun hn hm => ?_⟩
  · unfold taCell
    rw [if_pos hn]
    exact ⟨rfl, rfl⟩
  · unfold taCell
    rw [if_neg hn, if_pos hm]
    exact ⟨rfl, rfl⟩
  · unfold taCell
    rw [if_neg hn, if_neg (not_le.mpr hm)]
    exact ⟨rfl, rfl⟩

/-- C5 witness: one instance, two priors, prior 0 matched to ground-truth
row 0 and prior 1 a negative index; the matched cell copies the source row
with weight 1. -/
theorem target_assign_semantics_witness :
    ((targetAssignOut [[[5]], [[7]]] [0] [[0, -1]] [[1]] 9 1 2 1).getD 0 []).getD 0 [] =
      [5] ∧
    ((targetAssignWeight [[[5]], [[7]]] [0] [[0, -1]] [[1]] 9 1 2 1).getD 0 []).getD 0 0 =
      1 :=
  ⟨(((target_assign_semantics [[[5]], [[7]]] [0] [[0, -1]] [[1]] 9 1 2 1 0 0
      (by decide) (by decide)).2.1 (by decide) (by decide)).1).trans (by decide),
   ((target_assign_semantics [[[5]], [[7]]] [0] [[0, -1]] [[1]] 9 1 2 1 0 0
      (by decide) (by decide)).2.1 (by decide) (by decide)).2⟩

/-- The boolean ranking agrees with the propositional one. -/
theorem rankLEb_iff (cls : List ℚ) (a b : Nat) :
    rankLEb cls a b = true ↔ RankLE cls a b := by
  simp [rankLEb, RankLE]

/-- The loss ranking is total. -/
theorem rankLE_total (cls : List ℚ) (a b : Nat) : RankLE cls a b ∨ RankLE cls b a := by
  rcases lt_trichotomy (cls.getD a 0) (cls.getD b 0) with h | h | h
  · exact Or.inr (Or.inl h)
  · rcases Nat.le_total a b with hab | hab
    · exact Or.inl (Or.inr ⟨h, hab⟩)
    · exact Or.inr (Or.inr ⟨h.symm, hab⟩)
  · exact Or.inl (Or.inl h)

/-- The loss ranking is transitive. -/
theorem rankLE_trans (cls : List ℚ) (a b c : Nat)
    (h1 : RankLE cls a b) (h2 : RankLE cls b c) : RankLE cls a c := by
  rcases h1 with h1 | ⟨e1, l1⟩ <;> rcases h2 with h2 | ⟨e2, l2⟩
  · exact Or.inl (h2.trans h1)
  · exact Or.inl (e2 ▸ h1)
  · exact Or.inl (e1 ▸ h2)
  · exact Or.inr ⟨e1.trans e2, l1.trans l2⟩

/-- Membership in a ranked insertion. -/
theorem mem_rankedInsert (cls : List ℚ) (x : Nat) :
    ∀ (l : List Nat) (a : Nat), a ∈ rankedInsert cls x l ↔ a = x ∨ a ∈ l := by
  intro l
  induction l with
  | nil => intro a; simp [rankedInsert]
  | cons y ys ih =>
    intro a
    by_cases h : rankLEb cls x y = true
    · rw [rankedInsert, if_pos h]
      simp [List.mem_cons]
    · rw [rankedInsert, if_neg h]
      simp only [List.mem_cons, ih]
      tauto

/-- Membership is preserved by the ranked sort. -/
theorem mem_rankedSort (cls : List ℚ) :
    ∀ (l : List Nat) (a : Nat), a ∈ rankedSort cls l ↔ a ∈ l := by
  intro l
  induction l with
  | nil => intro a; simp [rankedSort]
  | cons y ys ih =>
    intro a
    rw [rankedSort, mem_rankedInsert, ih]
    simp [List.mem_cons]

/-- Ranked insertion preserves sortedness. -/
theorem pairwise_rankedInsert (cls : List ℚ) (x : Nat) :
    ∀ (l : List Nat), List.Pairwise (RankLE cls) l →
      List.Pairwise (RankLE cls) (rankedInsert cls x l) := by
  intro l
  induction l with
  | nil => intro _; simp [rankedInsert, List.pairwise_singleton]
  | cons y ys ih =>
    intro hp
    obtain ⟨hy, hys⟩ := List.pairwise_cons.mp hp
    by_cases h : rankLEb cls x y = true
    · rw [rankedInsert, if_pos h]
      refine List.pairwise_cons.mpr ⟨?_, hp⟩
      intro z hz
      rcases List.mem_cons.mp hz with rfl | hz
      · exact (rankLEb_iff cls x z).mp h
      · exact rankLE_trans cls x y z ((rankLEb_iff cls x y).mp h) (hy z hz)
    · rw [rankedInsert, if_neg h]
      have hyx : RankLE cls y x := by
        rcases rankLE_total cls x y with ht | ht
        · exact absurd ((rankLEb_iff cls x y).mpr ht) h
        · exact ht
      refine List.pairwise_cons.mpr ⟨?_, ih hys⟩
      intro z hz
      rcases (mem_rankedInsert cls x ys z).mp hz with rfl | hz
      · exact hyx
      · exact hy z hz

/-- The ranked sort is sorted under the loss ranking. -/
theorem pairwise_rankedSort (cls : List ℚ) :
    ∀ (l : List Nat), List.Pairwise (RankLE cls) (rankedSort cls l) := by
  intro l
  induction l with
  | nil => simp [rankedSort]
  | cons y ys ih => exact pairwise_rankedInsert cls y (rankedSort cls ys) ih

/-- C6: the hard-negative miner selects, per instance, at most
`floor(neg_pos_ratio * num_pos)` negatives (and none when `num_pos = 0`),
drawn only from priors with `MatchIndices = -1` and `MatchDistance` below the
negative-distance threshold; the selection is ranked by classification loss
descending with ties broken by ascending prior index, and every selected
candidate ranks no worse than every unselected candidate. -/
theorem mine_hard_semantics (cls : List ℚ) (mi : List Int) (md : List ℚ)
    (rNP thr : ℚ) :
    (mineHard cls mi md rNP thr).length ≤ Int.toNat ⌊rNP * (numPosOf mi : ℚ)⌋ ∧
    (numPosOf mi = 0 → mineHard cls mi md rNP thr = []) ∧
    (∀ j ∈ mineHard cls mi md rNP thr,
      mi.getD j 0 = -1 ∧ md.getD j 0 < thr ∧ j < mi.length) ∧
    List.Pairwise (RankLE cls) (mineHard cls mi md rNP thr) ∧
    (∀ s ∈ mineHard cls mi md rNP thr, ∀ u ∈ candNegs mi md thr,
      u ∉ mineHard cls mi md rNP thr → RankLE cls s u) := by
  refine ⟨?_, ?_, ?_, ?_, ?_⟩
  · rw [mineHard, List.length_take]
    exact min_le_left _ _
  · intro h0
    rw [mineHard, h0]
    norm_num
  · intro j hj
    rw [mineHard] at hj
    have hj2 := (mem_rankedSort cls (candNegs mi md thr) j).mp (List.mem_of_mem_take hj)
    simp only [candNegs, List.mem_filter, List.mem_range, Bool.and_eq_true,
      decide_eq_true_eq] at hj2
    exact ⟨hj2.2.1, hj2.2.2, hj2.1⟩
  · exact List.Pairwise.take (pairwise_rankedSort cls (candNegs mi md thr))
  · intro s hs u hu hnotu
    have hu2 : u ∈ rankedSort cls (candNegs mi md thr) :=
      (mem_rankedSort cls (candNegs mi md thr) u).mpr hu
    rw [mineHard] at hs hnotu
    have hsplit := List.take_append_drop (Int.toNat ⌊rNP * (numPosOf mi : ℚ)⌋)
      (rankedSort cls (candNegs mi md thr))
    have hpw : List.Pairwise (RankLE cls)
        (List.take (Int.toNat ⌊rNP * (numPosOf mi : ℚ)⌋)
            (rankedSort cls (candNegs mi md thr)) ++
          List.drop (Int.toNat ⌊rNP * (numPosOf mi : ℚ)⌋)
            (rankedSort cls (candNegs mi md thr))) := by
      rw [hsplit]
      exact pairwise_rankedSort cls (candNegs mi md thr)
    have hu3 : u ∈ List.drop (Int.toNat ⌊rNP * (numPosOf mi : ℚ)⌋)
        (rankedSort cls (candNegs mi md thr)) := by
      rw [← hsplit] at hu2
      rcases List.mem_append.mp hu2 with h | h
      · exact absurd h hnotu
      · exact h
    exact (List.pairwise_append.mp hpw).2.2 s hs u hu3

/-- C6 witness: one matched prior allows up to three negatives; index 2 is
selected, and it is an unmatched prior below the threshold. -/
theorem mine_hard_semantics_witness :
    (2 ∈ mineHard [3, 1, 2] [0, -1, -1] [1, 0, 0] 3 1) ∧
    (([0, -1, -1] : List Int).getD 2 0 = -1 ∧ ([1, 0, 0] : List ℚ).getD 2 0 < 1 ∧
      2 < ([0, -1, -1] : List Int).length) :=
  ⟨by norm_num [mineHard, numPosOf]; decide,
   (mine_hard_semantics [3, 1, 2] [0, -1, -1] [1, 0, 0] 3 1).2.2.1 2
     (by norm_num [mineHard, numPosOf]; decide)⟩

/-- A fold of `pickStep` yields the accumulator or a list element. -/
theorem foldl_pickStep_mem (dist : List (List ℚ)) :
    ∀ (l : List (Nat × Nat)) (acc : Option (Nat × Nat)) (x : Nat × Nat),
      l.foldl (pickStep dist) acc = some x → acc = some x ∨ x ∈ l := by
  intro l
  induction l with
  | nil => intro acc x h; exact Or.inl h
  | cons a as ih =>
    intro acc x h
    rcases ih (pickStep dist acc a) x h with h1 | h1
    · unfold pickStep at h1
      cases acc with
      | none =>
        injection h1 with h2
        exact Or.inr (h2 ▸ List.mem_cons_self a as)
      | some q =>
        simp only [] at h1
        by_cases hlt : dAt dist q.1 q.2 < dAt dist a.1 a.2
        · rw [if_pos hlt] at h1
          injection h1 with h2
          exact Or.inr (h2 ▸ List.mem_cons_self a as)
        · rw [if_neg hlt] at h1
          exact Or.inl h1
    · exact Or.inr (List.mem_cons_of_mem a h1)

/-- The first-encountered maximum is a list element. -/
theorem firstMax_mem (dist : List (List ℚ)) (l : List (Nat × Nat)) (x : Nat × Nat)
    (h : firstMax dist l = some x) : x ∈ l := by
  rcases foldl_pickStep_mem dist l none x h with h1 | h1
  · exact absurd h1 (by simp)
  · exact h1

/-- Membership in the available-entry list gives the bounds and the policy
conditions of the greedy pass. -/
theorem candList_mem (dist : List (List ℚ)) (uR uC : List Nat) (p : Nat × Nat)
    (h : p ∈ candList dist uR uC) :
    p.1 < dist.length ∧ p.2 < colsOf dist ∧ p.1 ∉ uR ∧ p.2 ∉ uC ∧
      0 < dAt dist p.1 p.2 := by
  simp only [candList, List.mem_filter, List.mem_flatMap, List.mem_range, List.mem_map,
    Bool.and_eq_true, decide_eq_true_eq] at h
  obtain ⟨⟨r, hr, c, hc, hrc⟩, h2⟩ := h
  subst hrc
  exact ⟨hr, hc, h2.1.1, h2.1.2, h2.2⟩

/-- Invariants of the greedy primary pass: the selected rows stay distinct
and every selected pair is a valid positive entry. -/
theorem bmGreedy_spec (dist : List (List ℚ)) :
    ∀ (fuel : Nat) (usedR usedC : List Nat) (acc : List (Nat × Nat)),
      (∀ x ∈ acc, x.1 ∈ usedR) →
      ((acc.map Prod.fst).Nodup) →
      (∀ x ∈ acc, x.1 < dist.length ∧ x.2 < colsOf dist ∧ 0 < dAt dist x.1 x.2) →
      ((bmGreedy dist fuel usedR usedC acc).map Prod.fst).Nodup ∧
      (∀ x ∈ bmGreedy dist fuel usedR usedC acc,
        x.1 < dist.length ∧ x.2 < colsOf dist ∧ 0 < dAt dist x.1 x.2) := by
  intro fuel
  induction fuel with
  | zero =>
    intro usedR usedC acc h1 h2 h3
    rw [bmGreedy]
    exact ⟨h2, h3⟩
  | succ n ih =>
    intro usedR usedC acc h1 h2 h3
    rw [bmGreedy]
    cases hfm : firstMax dist (candList dist usedR usedC) with
    | none => exact ⟨h2, h3⟩
    | some p =>
      simp only []
      have hp := candList_mem dist usedR usedC p (firstMax_mem dist _ p hfm)
      apply ih
      · intro x hx
        rcases List.mem_append.mp hx with hx | hx
        · exact List.mem_cons_of_mem _ (h1 x hx)
        · simp only [List.mem_singleton] at hx
          subst hx
          exact List.mem_cons_self _ _
      · rw [List.map_append]
        rw [List.nodup_append]
        refine ⟨h2, by simp, ?_⟩
        intro a ha hb
        simp only [List.map_cons, List.map_nil, List.mem_singleton] at hb
        subst hb
        obtain ⟨x, hx, hfx⟩ := List.mem_map.mp ha
        exact absurd (hfx ▸ h1 x hx) hp.2.2.1
      · intro x hx
        rcases List.mem_append.mp hx with hx | hx
        · exact h3 x hx
        · simp only [List.mem_singleton] at hx
          subst hx
          exact ⟨hp.1, hp.2.1, hp.2.2.2.2⟩

/-- The primary pass never repeats a row, and every primary match is a valid
positive entry. -/
theorem bmPrimary_spec (dist : List (List ℚ)) :
    ((bmPrimary dist).map Prod.fst).Nodup ∧
    ∀ x ∈ bmPrimary dist,
      x.1 < dist.length ∧ x.2 < colsOf dist ∧ 0 < dAt dist x.1 x.2 :=
  bmGreedy_spec dist dist.length [] [] [] (by simp) (by simp) (by simp)

/-- A fold of `pickRowStep` yields the accumulator or a list element. -/
theorem foldl_pickRowStep_mem (dist : List (List ℚ)) (c : Nat) :
    ∀ (l : List Nat) (acc : Option Nat) (r : Nat),
      l.foldl (pickRowStep dist c) acc = some r → acc = some r ∨ r ∈ l := by
  intro l
  induction l with
  | nil => intro acc r h; exact Or.inl h
  | cons a as ih =>
    intro acc r h
    rcases ih (pickRowStep dist c acc a) r h with h1 | h1
    · unfold pickRowStep at h1
      cases acc with
      | none =>
        injection h1 with h2
        exact Or.inr (h2 ▸ List.mem_cons_self a as)
      | some q =>
        simp only [] at h1
        by_cases hlt : dAt dist q c < dAt dist a c
        · rw [if_pos hlt] at h1
          injection h1 with h2
          exact Or.inr (h2 ▸ List.mem_cons_self a as)
        · rw [if_neg hlt] at h1
          exact Or.inl h1
    · exact Or.inr (List.mem_cons_of_mem a h1)

/-- The fallback best row of a column is a valid row with a strictly positive
entry. -/
theorem bestRow_mem (dist : List (List ℚ)) (c r : Nat) (h : bestRow dist c = some r) :
    r < dist.length ∧ 0 < dAt dist r c := by
  rcases foldl_pickRowStep_mem dist c _ none r h with h1 | h1
  · exact absurd h1 (by simp)
  · simp only [List.mem_filter, List.mem_range, decide_eq_true_eq] at h1
    exact ⟨h1.1, h1.2⟩

/-- C7: `bipartite_match` is a function of the distance matrix (the model is
deterministic by construction); both outputs have one entry per column; no
row is matched twice by the primary pass; and every output entry is either
-1 (with recorded distance -1.0) or a valid row index whose recorded distance
is the corresponding strictly positive matrix entry. -/
theorem bipartite_match_semantics (dist : List (List ℚ)) :
    (bmIndices dist).length = colsOf dist ∧
    (bmDists dist).length = colsOf dist ∧
    ((bmPrimary dist).map Prod.fst).Nodup ∧
    ∀ c, c < colsOf dist →
      ((bmIndices dist).getD c 0 = -1 ∧ (bmDists dist).getD c 0 = -1) ∨
      (0 ≤ (bmIndices dist).getD c 0 ∧
        ((bmIndices dist).getD c 0).toNat < dist.length ∧
        (bmDists dist).getD c 0 = dAt dist ((bmIndices dist).getD c 0).toNat c ∧
        0 < (bmDists dist).getD c 0) := by
  refine ⟨by simp [bmIndices], by simp [bmDists], (bmPrimary_spec dist).1, ?_⟩
  intro c hc
  unfold bmIndices bmDists
  rw [getD_map_range _ _ _ _ hc, getD_map_range _ _ _ _ hc]
  cases hf : (bmPrimary dist).find? (fun p => p.2 == c) with
  | some p =>
    simp only []
    right
    have hpmem := List.mem_of_find?_eq_some hf
    have hpc : p.2 = c := by
      have h2 := List.find?_some hf
      simpa using h2
    have hprops := (bmPrimary_spec dist).2 p hpmem
    refine ⟨Int.ofNat_zero_le p.1, ?_, ?_, ?_⟩
    · exact hprops.1
    · rw [hpc]
      rfl
    · exact hprops.2.2
  | none =>
    cases hb : bestRow dist c with
    | some r =>
      simp only []
      right
      have hr := bestRow_mem dist c r hb
      refine ⟨Int.ofNat_zero_le r, hr.1, rfl, hr.2⟩
    | none =>
      simp only []
      left
      constructor <;> trivial

/-- C7 witness: a concrete 2x2 matrix; column 0 is matched to a valid row
with a strictly positive recorded distance. -/
theorem bipartite_match_semantics_witness :
    (0 : Nat) < colsOf [[1, 0], [0, 2]] ∧
    (((bmIndices [[1, 0], [0, 2]]).getD 0 0 = -1 ∧
        (bmDists [[1, 0], [0, 2]]).getD 0 0 = -1) ∨
      (0 ≤ (bmIndices [[1, 0], [0, 2]]).getD 0 0 ∧
        ((bmIndices [[1, 0], [0, 2]]).getD 0 0).toNat <
          ([[1, 0], [0, 2]] : List (List ℚ)).length ∧
        (bmDists [[1, 0], [0, 2]]).getD 0 0 =
          dAt [[1, 0], [0, 2]] ((bmIndices [[1, 0], [0, 2]]).getD 0 0).toNat 0 ∧
        0 < (bmDists [[1, 0], [0, 2]]).getD 0 0)) :=
  ⟨by decide, (bipartite_match_semantics [[1, 0], [0, 2]]).2.2.2 0 (by decide)⟩

end SSDDetection.Native
